import Mathlib

/-!
Verification development for the HLL server-browser bot (`main.mjs`).

The relevant parts of the source are embedded shallowly:

* the query transport (`query.info` / `query.players`) is modelled as a
  function from the attempt index to an `Except`-result — `Except.error`
  models a thrown/timeout failure, `Except.ok none` models a falsy
  (undefined) resolution, `Except.ok (some v)` a real value;
* the query-result cache (`lastSuccessfulQueryResults`) is a map from the
  server key to an optional entry holding both fields of a pair;
* Discord surface operations (message fetch/edit/send/delete) are modelled
  by boolean success oracles plus a supply of fresh message ids; a thrown
  error inside a surface pass is an `Except.error`.

JavaScript truthiness that matters in the source is modelled explicitly:
`x || d` on numbers treats `0` as falsy, `name ? _ : _` treats the empty
string as falsy, and arrays/objects are always truthy.
-/

set_option maxHeartbeats 1000000

namespace HLL

/-- One entry of the player list returned by `query.players`: a name and an
optional session duration in seconds (missing duration is falsy in JS). -/
structure Player where
  name : String
  duration : Option Int
deriving DecidableEq, Repr

/-- The object returned by `query.info`; all fields may be absent, `{}` is
the all-absent value. -/
structure ServerInfo where
  name : Option String
  players : Option Nat
  maxPlayers : Option Nat
deriving DecidableEq, Repr

/-- The empty object `{}`. -/
def emptyServerInfo : ServerInfo := ⟨none, none, none⟩

/-- One entry of `lastSuccessfulQueryResults`: `{ serverInfo, playerList }`.
Both fields are always present because the single write site stores both. -/
structure CacheEntry where
  serverInfo : ServerInfo
  playerList : List Player
deriving DecidableEq, Repr

/-- `lastSuccessfulQueryResults`, keyed by `"address:port"`. -/
abbrev Cache := String → Option CacheEntry

/-- Transport for `query.info`: result of the k-th call for a given server. -/
abbrev InfoTransport := Nat → Except Unit (Option ServerInfo)

/-- Transport for `query.players`: result of the k-th call. -/
abbrev PlayersTransport := Nat → Except Unit (Option (List Player))

/-- `MAX_RETRIES = 1` from the configuration block. -/
def MAX_RETRIES : Nat := 1

/-- `getPlayerList` (main.mjs 142-163), with the attempt index and the
remaining retry budget explicit.  A successful call returns
`playerList || []`; a failure with retries left recurses after the delay;
exhausted retries fall back to the cached `playerList` when an entry
exists (a JS array is always truthy) and to `[]` otherwise. -/
def getPlayerListAux (tr : PlayersTransport) (cache : Option CacheEntry) :
    Nat → Nat → List Player
  | attempt, 0 =>
    match tr attempt with
    | Except.ok res => res.getD []
    | Except.error _ =>
      match cache with
      | some entry => entry.playerList
      | none => []
  | attempt, r + 1 =>
    match tr attempt with
    | Except.ok res => res.getD []
    | Except.error _ => getPlayerListAux tr cache (attempt + 1) r

/-- `getPlayerList(address, port)` with the default retry budget. -/
def getPlayerList (tr : PlayersTransport) (cache : Option CacheEntry) : List Player :=
  getPlayerListAux tr cache 0 MAX_RETRIES

/-- `getServerInfo` (main.mjs 169-183): a single call, no retry; a
successful call returns `serverInfo || {}`; a failure falls back to the
cached `serverInfo` when an entry exists (a JS object is truthy) and to
`{}` otherwise. -/
def getServerInfo (tr : InfoTransport) (cache : Option CacheEntry) : ServerInfo :=
  match tr 0 with
  | Except.ok res => res.getD emptyServerInfo
  | Except.error _ =>
    match cache with
    | some entry => entry.serverInfo
    | none => emptyServerInfo

/-- The per-server block of `updateServers` (main.mjs 260-278): query info,
then players, then unconditionally store the pair.  The surrounding
`try/catch` can never take its catch branch because both query helpers
handle their own failures and never throw, so the cache write always
executes.  Returns the updated cache together with the pair obtained. -/
def queryServer (trI : InfoTransport) (trP : PlayersTransport) (cache : Cache)
    (key : String) : Cache × ServerInfo × List Player :=
  let info := getServerInfo trI (cache key)
  let players := getPlayerList trP (cache key)
  (fun k => if k = key then some ⟨info, players⟩ else cache k, info, players)

/-- `formatDuration` (main.mjs 127-135): negative durations render `0:00`;
otherwise floor-divide seconds into hours and zero-padded minutes. -/
def formatDuration (seconds : Int) : String :=
  if seconds < 0 then "0:00"
  else
    let totalMinutes := seconds.toNat / 60
    let hours := totalMinutes / 60
    let minutes := totalMinutes % 60
    toString hours ++ ":" ++
      (if minutes < 10 then "0" ++ toString minutes else toString minutes)

/-- The fixed placeholder used when more than 40 players are on. -/
def playerListDisabledMsg : String := "Mehr als 40 Spieler - Liste deaktiviert."

/-- JS `String.prototype.trim`: strip leading and trailing whitespace
(executable model over the character list). -/
def jsTrim (s : String) : String :=
  String.mk (((s.data.dropWhile Char.isWhitespace).reverse.dropWhile
    Char.isWhitespace).reverse)

/-- `formatPlayerListEmbed` (main.mjs 203-216): the raw list length is
checked against 40 first; otherwise players with blank (empty or
whitespace-only) names are dropped and the rest rendered one per line. -/
def formatPlayerListEmbed (players : List Player) : String :=
  if players.length > 40 then playerListDisabledMsg
  else
    String.intercalate "\n"
      ((players.filter fun p => p.name ≠ "" && jsTrim p.name ≠ "").map fun p =>
        (if p.name = "" then "Unknown" else p.name) ++ " (" ++
          formatDuration (p.duration.getD 0) ++ ")")

/-- One element of `serverDetails` (main.mjs 280-288). -/
structure ServerDetail where
  name : String
  players : Nat
  maxPlayers : Nat
  playerList : List Player
deriving DecidableEq, Repr

/-- The embed description built in `createEmbedsForServer` (main.mjs 221-229). -/
def embedDescription (server : ServerDetail) : String :=
  "Spieler: " ++ toString server.players ++ "/" ++ toString server.maxPlayers ++
    "\n\n" ++ formatPlayerListEmbed server.playerList

/-- JS `v || d` on an optional number: `0`, like absence, is falsy. -/
def jsOrNat (v : Option Nat) (d : Nat) : Nat :=
  match v with
  | some n => if n = 0 then d else n
  | none => d

/-- The name normalisation of main.mjs 285: collapse whitespace runs, trim,
and insert a zero-width space after every period. -/
def normalizeName (s : String) : String :=
  (String.intercalate " " ((s.split Char.isWhitespace).filter fun w => w ≠ "")).replace
    "." (".".push (Char.ofNat 8203))

/-- Building one `serverDetails` element from the obtained pair
(main.mjs 280-288); the empty string is falsy in the `serverInfo.name ?`
test. -/
def detailOf (info : ServerInfo) (players : List Player) : ServerDetail where
  name :=
    match info.name with
    | some s => if s = "" then "Unknown Server" else normalizeName s
    | none => "Unknown Server"
  players := jsOrNat info.players 0
  maxPlayers := jsOrNat info.maxPlayers 100
  playerList := players

/-- The display filter of main.mjs 292: `players > 0 && players <= 40`. -/
def keepServer (s : ServerDetail) : Bool :=
  decide (0 < s.players) && decide (s.players ≤ 40)

/-- Stable insertion of an earlier element into an already sorted later
suffix, descending by `players`: the new element goes before the first
element it is not strictly below, so equal populations keep input order —
the behaviour of the stable JS `sort((a, b) => b.players - a.players)`. -/
def insertDesc (x : ServerDetail) : List ServerDetail → List ServerDetail
  | [] => [x]
  | y :: ys => if y.players ≤ x.players then x :: y :: ys else y :: insertDesc x ys

/-- The stable descending sort by `players` of main.mjs 293. -/
def sortPlayersDesc (l : List ServerDetail) : List ServerDetail :=
  l.foldr insertDesc []

/-- `sortedServers` (main.mjs 291-293): filter then stable sort. -/
def sortedServersOf (l : List ServerDetail) : List ServerDetail :=
  sortPlayersDesc (l.filter keepServer)

/-- Whether the first list is an initial segment of the second. -/
def startsWithChars : List Char → List Char → Bool
  | [], _ => true
  | _ :: _, [] => false
  | p :: ps, c :: cs => p == c && startsWithChars ps cs

/-- Left-to-right non-overlapping global substring replacement over
character lists (the semantics of a `/literal/g` regex replace); the fuel
argument, instantiated with the text length, only serves structural
termination and is never exhausted since every step consumes a
character. -/
def replaceAllChars (pat repl : List Char) : Nat → List Char → List Char
  | 0, l => l
  | _ + 1, [] => []
  | fuel + 1, c :: cs =>
    match pat with
    | [] => c :: replaceAllChars pat repl fuel cs
    | q :: qs =>
      if q == c && startsWithChars qs cs then
        repl ++ replaceAllChars pat repl fuel (cs.drop qs.length)
      else c :: replaceAllChars pat repl fuel cs

/-- The display-name rewrite of main.mjs 299: every occurrence of the
promotional tag `Clan!Twitch` is collapsed to `Clan`. -/
def rewriteName (s : String) : String :=
  String.mk (replaceAllChars "Clan!Twitch".data "Clan".data s.data.length s.data)

/-- The dedupe loop of main.mjs 296-308 over the sorted list: the rewrite
is applied first, a name already in the seen set drops the server and
records a duplicate warning, otherwise the server is rendered under the
rewritten name.  Returns the rendered servers and the warned names. -/
def dedupeRender : List ServerDetail → List String → List ServerDetail × List String
  | [], _ => ([], [])
  | s :: rest, seen =>
    let n := rewriteName s.name
    if n ∈ seen then
      let p := dedupeRender rest seen
      (p.1, n :: p.2)
    else
      let p := dedupeRender rest (n :: seen)
      ({ s with name := n } :: p.1, p.2)

/-- Modelled from the spec wording for the dedupe step, for comparison:
keep the first occurrence of every name, given names already seen. -/
def firstOccurrences : List String → List String → List String
  | [], _ => []
  | n :: rest, seen =>
    if n ∈ seen then firstOccurrences rest seen
    else n :: firstOccurrences rest (n :: seen)

/-- A publishing surface for one cycle: success oracles for the message
operations and the ids handed out by successive sends.  `editOk id` covers
the `messages.fetch` + `msg.edit` pair on slot `id`; `sendOk k` the k-th
`channel.send` of the pass; `delOk id` the `messages.fetch` + `msg.delete`
pair on slot `id`. -/
structure Surface where
  editOk : Nat → Bool
  sendOk : Nat → Bool
  fresh : Nat → Nat
  delOk : Nat → Bool

/-- Outcome of the edit/create loop: the new slot list plus operation
counts. -/
structure RecOut where
  slots : List Nat
  edits : Nat
  creates : Nat
deriving DecidableEq, Repr

/-- The edit/create loop of main.mjs 317-333, position by position: an
existing slot is edited in place (keeping its id) when the fetch+edit pair
succeeds, otherwise a fresh message is sent; positions beyond the previous
list always send.  A throwing send propagates, modelled as
`Except.error`, aborting the rest of the surface pass. -/
def reconcileSlots (sf : Surface) : List String → List Nat → Nat → Except Unit RecOut
  | [], _, _ => Except.ok ⟨[], 0, 0⟩
  | _e :: es, p :: ps, k =>
    if sf.editOk p then
      match reconcileSlots sf es ps k with
      | Except.ok r => Except.ok ⟨p :: r.slots, r.edits + 1, r.creates⟩
      | Except.error u => Except.error u
    else if sf.sendOk k then
      match reconcileSlots sf es ps (k + 1) with
      | Except.ok r => Except.ok ⟨sf.fresh k :: r.slots, r.edits, r.creates + 1⟩
      | Except.error u => Except.error u
    else Except.error ()
  | _e :: es, [], k =>
    if sf.sendOk k then
      match reconcileSlots sf es [] (k + 1) with
      | Except.ok r => Except.ok ⟨sf.fresh k :: r.slots, r.edits, r.creates + 1⟩
      | Except.error u => Except.error u
    else Except.error ()

/-- The trailing-delete loop of main.mjs 335-342: each leftover previous
slot gets a fetch+delete attempt whose failure is only logged.  Counts the
deletions that go through. -/
def deleteCount (sf : Surface) (items : List String) (prev : List Nat) : Nat :=
  ((prev.drop items.length).filter sf.delOk).length

/-- One surface pass of main.mjs 311-345: if the channel fetch fails
nothing happens; otherwise the edit/create loop runs and, when it finishes
without a thrown send, the new slot list is the value remembered by the
final `lastMessages[channelId] = newMessages` assignment. -/
def processSurface (chOk : Bool) (sf : Surface) (items : List String)
    (prev : List Nat) : Except Unit (List Nat) :=
  if chOk then
    match reconcileSlots sf items prev 0 with
    | Except.ok r => Except.ok r.slots
    | Except.error u => Except.error u
  else Except.error ()

/-- One configured surface in a cycle: its channel id, whether the channel
fetch succeeds, and its operation oracles. -/
structure SurfaceRun where
  cid : Nat
  chOk : Bool
  sf : Surface

/-- The `for (const channelId of ...)` loop of main.mjs 310-349 over the
`lastMessages` state (missing keys read as `[]` through `|| []`): each
surface is processed inside its own try/catch, so a failing surface leaves
the state untouched and the loop continues with the next surface. -/
def runSurfaces (items : List String) : List SurfaceRun → (Nat → List Nat) → Nat → List Nat
  | [], st => st
  | r :: rest, st =>
    match processSurface r.chOk r.sf items (st r.cid) with
    | Except.ok slots => runSurfaces items rest fun c => if c = r.cid then slots else st c
    | Except.error _ => runSurfaces items rest st

/-! Concrete transports, cache entries and servers used by the witnesses
and counterexamples. -/

/-- A transport whose every call throws. -/
def failInfoTr : InfoTransport := fun _ => Except.error ()

/-- A players transport whose every call throws. -/
def failPlayersTr : PlayersTransport := fun _ => Except.error ()

/-- Info recovered on the second attempt. -/
def infoRecovered : ServerInfo := ⟨some "Recovered", some 9, some 100⟩

/-- An info transport that fails once, then succeeds. -/
def infoRetryTr : InfoTransport :=
  fun k => if k = 0 then Except.error () else Except.ok (some infoRecovered)

/-- A players transport that fails once, then succeeds. -/
def playersRetryTr : PlayersTransport :=
  fun k => if k = 0 then Except.error () else Except.ok (some [⟨"carol", some 30⟩])

/-- A complete cached pair from an earlier successful round. -/
def entryOld : CacheEntry := ⟨⟨some "Old Name", some 5, some 100⟩, [⟨"alice", some 60⟩]⟩

/-- Fresh info from the current round. -/
def infoNew : ServerInfo := ⟨some "New Name", some 7, some 100⟩

/-- A cache holding `entryOld` under one key. -/
def cacheOld : Cache := fun k => if k = "10.0.0.1:7777" then some entryOld else none

/-- An info transport that succeeds immediately. -/
def okInfoTr : InfoTransport := fun _ => Except.ok (some infoNew)

/-- Exhausting all attempts makes `getPlayerListAux` return the cached
player list when an entry exists and `[]` otherwise, whatever the attempt
index and retry budget. -/
theorem getPlayerListAux_allFail (trP : PlayersTransport) (cache : Option CacheEntry)
    (hP : ∀ k, trP k = Except.error ()) (a r : Nat) :
    getPlayerListAux trP cache a r =
      match cache with
      | some entry => entry.playerList
      | none => [] := by
  induction r generalizing a with
  | zero => simp [getPlayerListAux, hP a]
  | succ n ih => simp [getPlayerListAux, hP a, ih]

/-- C3: when every transport attempt fails, a server with no cache entry
gets `{}` from the info query and `[]` from the players query, and a
server with a cache entry gets back exactly the cached fields; both query
helpers are total functions, so no exception can propagate to the cycle. -/
theorem query_fallback_spec (trI : InfoTransport) (trP : PlayersTransport)
    (cache : Option CacheEntry)
    (hI : trI 0 = Except.error ()) (hP : ∀ k, trP k = Except.error ()) :
    (cache = none →
      getServerInfo trI cache = emptyServerInfo ∧ getPlayerList trP cache = []) ∧
    (∀ e, cache = some e →
      getServerInfo trI cache = e.serverInfo ∧ getPlayerList trP cache = e.playerList) := by
  constructor
  · rintro rfl
    exact ⟨by simp [getServerInfo, hI], by
      simpa [getPlayerList] using getPlayerListAux_allFail trP none hP 0 MAX_RETRIES⟩
  · rintro e rfl
    exact ⟨by simp [getServerInfo, hI], by
      simpa [getPlayerList] using getPlayerListAux_allFail trP (some e) hP 0 MAX_RETRIES⟩

/-- Witness for C3 at an all-failing transport, with and without a cache
entry. -/
theorem query_fallback_spec_witness :
    (getServerInfo failInfoTr none = emptyServerInfo ∧
      getPlayerList failPlayersTr none = []) ∧
    (getServerInfo failInfoTr (some entryOld) = entryOld.serverInfo ∧
      getPlayerList failPlayersTr (some entryOld) = entryOld.playerList) :=
  ⟨(query_fallback_spec failInfoTr failPlayersTr none rfl (fun _ => rfl)).1 rfl,
    (query_fallback_spec failInfoTr failPlayersTr (some entryOld) rfl
      (fun _ => rfl)).2 entryOld rfl⟩

/-- C2 counterexample: with a transport that fails on the first attempt
and succeeds on the second, the players query recovers the value (it
retries) but the info query returns `{}` — `getServerInfo` issues a single
call and never retries, contradicting the claim that both operations
retry up to the retry budget. -/
theorem query_retry_counterexample :
    getServerInfo infoRetryTr none = emptyServerInfo ∧
    emptyServerInfo ≠ infoRecovered ∧
    getPlayerList playersRetryTr none = [⟨"carol", some 30⟩] := by
  refine ⟨rfl, by decide, rfl⟩

/-- C2 amended: only the players query retries after a failed attempt
(waiting the fixed delay first), consulting at most attempts
`0..MAX_RETRIES` before falling back; the info query depends on its first
attempt alone, falling back to the cache (or `{}`) on first failure. -/
theorem query_retry_amended (cache : Option CacheEntry) :
    (∀ (tr : PlayersTransport) (v : List Player),
      tr 0 = Except.error () → tr 1 = Except.ok (some v) →
      getPlayerList tr cache = v) ∧
    (∀ tr tr' : PlayersTransport, tr 0 = tr' 0 → tr 1 = tr' 1 →
      getPlayerList tr cache = getPlayerList tr' cache) ∧
    (∀ tr tr' : InfoTransport, tr 0 = tr' 0 →
      getServerInfo tr cache = getServerInfo tr' cache) ∧
    (∀ tr : InfoTransport, tr 0 = Except.error () →
      getServerInfo tr cache =
        (match cache with
          | some entry => entry.serverInfo
          | none => emptyServerInfo)) := by
  refine ⟨?_, ?_, ?_, ?_⟩
  · intro tr v h0 h1
    simp [getPlayerList, MAX_RETRIES, getPlayerListAux, h0, h1]
  · intro tr tr' h0 h1
    simp only [getPlayerList, MAX_RETRIES, getPlayerListAux, h0, h1]
  · intro tr tr' h0
    simp only [getServerInfo, h0]
  · intro tr h0
    simp [getServerInfo, h0]

/-- Witness for the amended C2: the players query recovers on the retry,
and the info query cannot tell a retry-recovering transport from an
always-failing one. -/
theorem query_retry_amended_witness :
    getPlayerList playersRetryTr none = [⟨"carol", some 30⟩] ∧
    getServerInfo infoRetryTr none = getServerInfo failInfoTr none :=
  ⟨(query_retry_amended none).1 playersRetryTr [⟨"carol", some 30⟩] rfl rfl,
    (query_retry_amended none).2.2.1 infoRetryTr failInfoTr rfl⟩

/-- C1 counterexample: a round whose info query succeeds with fresh data
while every players attempt fails does not leave the cache entry
untouched — the per-server block stores the pair unconditionally, writing
the mixed pair of fresh info and the previous round's players. -/
theorem cache_atomic_counterexample :
    (queryServer okInfoTr failPlayersTr cacheOld "10.0.0.1:7777").1 "10.0.0.1:7777" =
      some ⟨infoNew, entryOld.playerList⟩ ∧
    (queryServer okInfoTr failPlayersTr cacheOld "10.0.0.1:7777").1 "10.0.0.1:7777" ≠
      cacheOld "10.0.0.1:7777" := by
  constructor
  · rfl
  · decide

/-- C1 amended: the cache entry is overwritten on every cycle with the
pair of per-field results, each field fresh when its query succeeded and
the fallback (previous cached value) when it failed; a cycle where players
fail but info succeeds writes the mixed pair of fresh info and cached
players, and symmetrically. -/
theorem cache_write_amended (trI : InfoTransport) (trP : PlayersTransport)
    (cache : Cache) (key : String) (e : CacheEntry)
    (hc : cache key = some e) :
    (∀ i, trI 0 = Except.ok (some i) → (∀ k, trP k = Except.error ()) →
      (queryServer trI trP cache key).1 key = some ⟨i, e.playerList⟩) ∧
    (∀ pl, trI 0 = Except.error () → trP 0 = Except.ok (some pl) →
      (queryServer trI trP cache key).1 key = some ⟨e.serverInfo, pl⟩) := by
  constructor
  · intro i hI hP
    simp [queryServer, getServerInfo, getPlayerList, hI, hc,
      getPlayerListAux_allFail trP (some e) hP]
  · intro pl hI hP
    simp [queryServer, getServerInfo, getPlayerList, MAX_RETRIES,
      getPlayerListAux, hI, hP, hc]

/-- Witness for the amended C1 at the concrete mixed-pair round. -/
theorem cache_write_amended_witness :
    (queryServer okInfoTr failPlayersTr cacheOld "10.0.0.1:7777").1 "10.0.0.1:7777" =
      some ⟨infoNew, entryOld.playerList⟩ :=
  (cache_write_amended okInfoTr failPlayersTr cacheOld "10.0.0.1:7777" entryOld
    rfl).1 infoNew rfl (fun _ => rfl)

/-- A server whose advertised population disagrees with its 41-entry
player list. -/
def serverLongList : ServerDetail :=
  ⟨"Busy", 99, 100, List.replicate 41 ⟨"p", some 60⟩⟩

/-- C6: a player list longer than 40 entries renders exactly the fixed
placeholder, and the embed description shows that placeholder regardless
of the advertised population fields — the check reads only the list
length. -/
theorem player_list_cap_spec (server : ServerDetail)
    (h : 40 < server.playerList.length) :
    formatPlayerListEmbed server.playerList = playerListDisabledMsg ∧
    embedDescription server =
      "Spieler: " ++ toString server.players ++ "/" ++ toString server.maxPlayers ++
        "\n\n" ++ playerListDisabledMsg := by
  have hfmt : formatPlayerListEmbed server.playerList = playerListDisabledMsg := by
    unfold formatPlayerListEmbed
    simp [h]
  exact ⟨hfmt, by unfold embedDescription; rw [hfmt]⟩

/-- Witness for C6 at a 41-entry list on a server advertising 99 players. -/
theorem player_list_cap_spec_witness :
    formatPlayerListEmbed serverLongList.playerList = playerListDisabledMsg ∧
    embedDescription serverLongList =
      "Spieler: " ++ toString serverLongList.players ++ "/" ++
        toString serverLongList.maxPlayers ++ "\n\n" ++ playerListDisabledMsg :=
  player_list_cap_spec serverLongList (by decide)

/-- C10: the cap check runs on the raw list, before blank names are
dropped: more than 40 all-blank entries still render the placeholder,
while at most 40 all-blank entries render an empty block. -/
theorem blank_names_render_spec (ps : List Player)
    (hblank : ∀ p ∈ ps, jsTrim p.name = "") :
    (40 < ps.length → formatPlayerListEmbed ps = playerListDisabledMsg) ∧
    (ps.length ≤ 40 → formatPlayerListEmbed ps = "") := by
  constructor
  · intro h
    unfold formatPlayerListEmbed
    simp [h]
  · intro h
    unfold formatPlayerListEmbed
    have hgt : ¬ ps.length > 40 := by omega
    rw [if_neg hgt]
    have hf : (ps.filter fun p => p.name ≠ "" && jsTrim p.name ≠ "") = [] := by
      rw [List.filter_eq_nil_iff]
      intro p hp
      simp [hblank p hp]
    rw [hf]
    rfl

/-- Witness for C10: 41 blank-named players render the placeholder, 3
blank-named players render nothing. -/
theorem blank_names_render_spec_witness :
    formatPlayerListEmbed (List.replicate 41 (Player.mk " " none)) =
      playerListDisabledMsg ∧
    formatPlayerListEmbed (List.replicate 3 (Player.mk " " none)) = "" :=
  ⟨(blank_names_render_spec (List.replicate 41 (Player.mk " " none))
      (by decide)).1 (by decide),
    (blank_names_render_spec (List.replicate 3 (Player.mk " " none))
      (by decide)).2 (by decide)⟩

/-- Membership is preserved by the stable insertion step. -/
theorem mem_insertDesc (x a : ServerDetail) (l : List ServerDetail) :
    a ∈ insertDesc x l ↔ a = x ∨ a ∈ l := by
  induction l with
  | nil => simp [insertDesc]
  | cons y ys ih =>
    unfold insertDesc
    by_cases h : y.players ≤ x.players
    · simp [h]
    · simp [h, ih]
      tauto

/-- The stable insertion step preserves descending sortedness. -/
theorem pairwise_insertDesc (x : ServerDetail) (l : List ServerDetail)
    (hl : l.Pairwise fun a b => b.players ≤ a.players) :
    (insertDesc x l).Pairwise fun a b => b.players ≤ a.players := by
  induction l with
  | nil => simp [insertDesc]
  | cons y ys ih =>
    rcases List.pairwise_cons.mp hl with ⟨hy, hys⟩
    unfold insertDesc
    by_cases h : y.players ≤ x.players
    · rw [if_pos h, List.pairwise_cons]
      refine ⟨?_, hl⟩
      intro b hb
      rcases List.mem_cons.mp hb with rfl | hb'
      · exact h
      · exact le_trans (hy b hb') h
    · rw [if_neg h, List.pairwise_cons]
      push_neg at h
      refine ⟨?_, ih hys⟩
      intro b hb
      rcases (mem_insertDesc x b ys).mp hb with rfl | hb'
      · exact le_of_lt h
      · exact hy b hb'

/-- The sort of main.mjs 293 produces a list descending in `players`. -/
theorem pairwise_sortPlayersDesc (l : List ServerDetail) :
    (sortPlayersDesc l).Pairwise fun a b => b.players ≤ a.players := by
  induction l with
  | nil => simp [sortPlayersDesc]
  | cons x xs ih => exact pairwise_insertDesc x (sortPlayersDesc xs) ih

/-- Membership in the sorted list is membership in the input. -/
theorem mem_sortPlayersDesc (a : ServerDetail) (l : List ServerDetail) :
    a ∈ sortPlayersDesc l ↔ a ∈ l := by
  induction l with
  | nil => simp [sortPlayersDesc]
  | cons x xs ih =>
    show a ∈ insertDesc x (sortPlayersDesc xs) ↔ _
    rw [mem_insertDesc]
    simp [ih]

/-- How the insertion step interacts with filtering by one population
value: an element is inserted in front of the block of its equals, so the
relative order of equal populations never changes. -/
theorem filter_insertDesc (v : Nat) (x : ServerDetail) (l : List ServerDetail) :
    (insertDesc x l).filter (fun s => s.players == v) =
      if x.players = v then x :: l.filter (fun s => s.players == v)
      else l.filter (fun s => s.players == v) := by
  induction l with
  | nil =>
    by_cases h : x.players = v <;> simp [insertDesc, h]
  | cons y ys ih =>
    unfold insertDesc
    by_cases h : y.players ≤ x.players
    · rw [if_pos h]
      by_cases hx : x.players = v <;> simp [List.filter_cons, hx]
    · rw [if_neg h]
      push_neg at h
      by_cases hy : y.players = v
      · have hx : ¬ x.players = v := by omega
        simp [List.filter_cons, hy, hx, ih]
      · simp [List.filter_cons, hy, ih]

/-- Stability of the sort: for every population value, the sublist with
that value is unchanged. -/
theorem filter_sortPlayersDesc (v : Nat) (l : List ServerDetail) :
    (sortPlayersDesc l).filter (fun s => s.players == v) =
      l.filter (fun s => s.players == v) := by
  induction l with
  | nil => rfl
  | cons x xs ih =>
    show (insertDesc x (sortPlayersDesc xs)).filter _ = _
    rw [filter_insertDesc]
    by_cases h : x.players = v <;> simp [List.filter_cons, h, ih]

/-- The populations `[0, 5, 41, 40, 40]` of the spec example. -/
def exListC4 : List ServerDetail :=
  [⟨"A", 0, 100, []⟩, ⟨"B", 5, 100, []⟩, ⟨"C", 41, 100, []⟩,
    ⟨"D", 40, 100, []⟩, ⟨"E", 40, 100, []⟩]

/-- C4: exactly the servers with `0 < players ≤ 40` survive the display
filter; the survivors are sorted descending in `players`; for every
population value the survivors with that value keep their discovery
order (stability); and the example populations `[0, 5, 41, 40, 40]`
yield `40, 40, 5` with the tied pair in input order. -/
theorem display_filter_sort_spec (l : List ServerDetail) :
    (∀ s, s ∈ sortedServersOf l ↔ s ∈ l ∧ 0 < s.players ∧ s.players ≤ 40) ∧
    (sortedServersOf l).Pairwise (fun a b => b.players ≤ a.players) ∧
    (∀ v, (sortedServersOf l).filter (fun s => s.players == v) =
      (l.filter keepServer).filter (fun s => s.players == v)) ∧
    ((sortedServersOf exListC4).map (fun s => s.players) = [40, 40, 5] ∧
      (sortedServersOf exListC4).map (fun s => s.name) = ["D", "E", "B"]) := by
  refine ⟨?_, ?_, ?_, by decide, by decide⟩
  · intro s
    rw [sortedServersOf, mem_sortPlayersDesc, List.mem_filter, keepServer]
    simp
  · exact pairwise_sortPlayersDesc (l.filter keepServer)
  · intro v
    exact filter_sortPlayersDesc v (l.filter keepServer)

/-- The dedupe loop projected to display names: it renders exactly the
first occurrence of every rewritten name, and accounts one warning per
dropped server. -/
theorem dedupeRender_names (l : List ServerDetail) (seen : List String) :
    ((dedupeRender l seen).1.map fun s => s.name) =
      firstOccurrences (l.map fun s => rewriteName s.name) seen ∧
    (dedupeRender l seen).1.length + (dedupeRender l seen).2.length = l.length := by
  induction l generalizing seen with
  | nil => simp [dedupeRender, firstOccurrences]
  | cons s rest ih =>
    by_cases h : rewriteName s.name ∈ seen
    · have hr := ih seen
      simp only [dedupeRender, firstOccurrences, List.map_cons, if_pos h]
      refine ⟨hr.1, ?_⟩
      simp only [List.length_cons, List.length_map] at hr ⊢
      omega
    · have hr := ih (rewriteName s.name :: seen)
      simp only [dedupeRender, firstOccurrences, List.map_cons, if_neg h]
      refine ⟨by simp [hr.1], ?_⟩
      simp only [List.length_cons, List.length_map] at hr ⊢
      omega

/-- Two survivors whose rewritten display names collide, in sorted
(population-descending) order. -/
def exColl1 : ServerDetail := ⟨"XClan!Twitch Server", 30, 100, []⟩

/-- The lower-population server of the colliding pair. -/
def exColl2 : ServerDetail := ⟨"XClan Server", 20, 100, []⟩

/-- C5: the promotional-tag rewrite happens before deduplication and the
dedupe key is the rewritten display name — the rendered servers carry, in
order, exactly the first occurrence of each rewritten name, every dropped
server records one duplicate warning, and for the colliding concrete pair
the first in population-descending order is rendered while the second
only leaves a warning. -/
theorem dedupe_rewritten_spec (l : List ServerDetail) :
    ((dedupeRender l []).1.map fun s => s.name) =
      firstOccurrences (l.map fun s => rewriteName s.name) [] ∧
    (dedupeRender l []).1.length + (dedupeRender l []).2.length = l.length ∧
    (dedupeRender [exColl1, exColl2] []).1 = [⟨"XClan Server", 30, 100, []⟩] ∧
    (dedupeRender [exColl1, exColl2] []).2 = ["XClan Server"] := by
  exact ⟨(dedupeRender_names l []).1, (dedupeRender_names l []).2,
    by decide, by decide⟩

/-- A completed edit/create loop always remembers exactly one slot per
rendered item. -/
theorem reconcileSlots_ok_length (sf : Surface) (items : List String)
    (prev : List Nat) (k : Nat) (r : RecOut)
    (h : reconcileSlots sf items prev k = Except.ok r) :
    r.slots.length = items.length := by
  induction items generalizing prev k r with
  | nil =>
    simp only [reconcileSlots] at h
    cases h
    rfl
  | cons e es ih =>
    cases prev with
    | nil =>
      simp only [reconcileSlots] at h
      by_cases hs : sf.sendOk k
      · rw [if_pos hs] at h
        cases hrec : reconcileSlots sf es [] (k + 1) with
        | ok r0 =>
          rw [hrec] at h
          cases h
          simpa using ih [] (k + 1) r0 hrec
        | error u => rw [hrec] at h; cases h
      · rw [if_neg hs] at h; cases h
    | cons p ps =>
      simp only [reconcileSlots] at h
      by_cases he : sf.editOk p
      · rw [if_pos he] at h
        cases hrec : reconcileSlots sf es ps k with
        | ok r0 =>
          rw [hrec] at h
          cases h
          simpa using ih ps k r0 hrec
        | error u => rw [hrec] at h; cases h
      · rw [if_neg he] at h
        by_cases hs : sf.sendOk k
        · rw [if_pos hs] at h
          cases hrec : reconcileSlots sf es ps (k + 1) with
          | ok r0 =>
            rw [hrec] at h
            cases h
            simpa using ih ps (k + 1) r0 hrec
          | error u => rw [hrec] at h; cases h
        · rw [if_neg hs] at h; cases h

/-- When the remembered list already has one slot per item and every slot
edits cleanly, the loop is pure edits: same slots, one edit per item, no
creates. -/
theorem reconcileSlots_allEdit (sf : Surface) (items : List String)
    (slots : List Nat) (k : Nat) (hlen : slots.length = items.length)
    (hed : ∀ id ∈ slots, sf.editOk id = true) :
    reconcileSlots sf items slots k = Except.ok ⟨slots, items.length, 0⟩ := by
  induction items generalizing slots k with
  | nil =>
    cases slots with
    | nil => rfl
    | cons p ps => simp at hlen
  | cons e es ih =>
    cases slots with
    | nil => simp at hlen
    | cons p ps =>
      have hp : sf.editOk p = true := hed p (List.mem_cons_self p ps)
      have hrec := ih ps k (by simpa using hlen)
        (fun id hid => hed id (List.mem_cons_of_mem p hid))
      simp [reconcileSlots, hp, hrec]

/-- C7: reconciliation is idempotent — rerunning the loop on the slot
list produced by a completed run, with the same rendered items and
cleanly editing slots, performs only edits (no creates) and leaves the
remembered list identical; no trailing slot remains, so no delete is
attempted. -/
theorem reconcile_idempotent_spec (sf : Surface) (items : List String)
    (prev : List Nat) (r1 : RecOut)
    (h1 : reconcileSlots sf items prev 0 = Except.ok r1)
    (hed : ∀ id ∈ r1.slots, sf.editOk id = true) :
    reconcileSlots sf items r1.slots 0 = Except.ok ⟨r1.slots, items.length, 0⟩ ∧
    deleteCount sf items r1.slots = 0 := by
  have hlen := reconcileSlots_ok_length sf items prev 0 r1 h1
  refine ⟨reconcileSlots_allEdit sf items r1.slots 0 hlen hed, ?_⟩
  unfold deleteCount
  rw [List.drop_eq_nil_of_le (le_of_eq hlen)]
  rfl

/-- A surface whose every operation succeeds; sends hand out ids
`100, 101, ...`. -/
def sfAllOk : Surface := ⟨fun _ => true, fun _ => true, fun k => 100 + k, fun _ => true⟩

/-- Witness for C7: a first run over two items and one previous slot (one
edit, one create), then the idempotent second run. -/
theorem reconcile_idempotent_spec_witness :
    reconcileSlots sfAllOk ["a", "b"] [5, 100] 0 =
      Except.ok ⟨[5, 100], ["a", "b"].length, 0⟩ ∧
    deleteCount sfAllOk ["a", "b"] [5, 100] = 0 :=
  reconcile_idempotent_spec sfAllOk ["a", "b"] [5] ⟨[5, 100], 1, 1⟩
    rfl (by decide)

/-- The edit/create loop under fully succeeding operations, in closed
form: the surviving prefix of previous slots followed by the freshly sent
ids, one edit per aligned position, one create per excess item. -/
theorem reconcileSlots_success (sf : Surface)
    (hed : ∀ id, sf.editOk id = true) (hsend : ∀ k, sf.sendOk k = true)
    (items : List String) :
    ∀ (prev : List Nat) (k : Nat),
    reconcileSlots sf items prev k =
      Except.ok ⟨prev.take items.length ++
          (List.range' k (items.length - prev.length)).map sf.fresh,
        min items.length prev.length, items.length - prev.length⟩ := by
  induction items with
  | nil =>
    intro prev k
    simp [reconcileSlots]
  | cons e es ih =>
    intro prev k
    cases prev with
    | nil =>
      have hrec := ih [] (k + 1)
      simp only [reconcileSlots, hsend k, if_pos, hrec, List.length_cons,
        List.length_nil]
      simp [List.range'_succ k es.length 1]
    | cons p ps =>
      have hrec := ih ps k
      simp only [reconcileSlots, hed p, if_pos, hrec, List.length_cons]
      simp [Nat.succ_min_succ, Nat.succ_sub_succ, List.take_succ_cons]

/-- C8: after a pass over a reachable surface with succeeding operations,
the remembered list has exactly one slot per rendered item; the aligned
positions are edited (`min` of the lengths), each position at or beyond
the previous length is created, and each trailing leftover slot is
deleted. -/
theorem reconcile_counts_spec (sf : Surface) (items : List String)
    (prev : List Nat) (hed : ∀ id, sf.editOk id = true)
    (hsend : ∀ k, sf.sendOk k = true) (hdel : ∀ id, sf.delOk id = true) :
    (∃ slots, reconcileSlots sf items prev 0 =
        Except.ok ⟨slots, min items.length prev.length,
          items.length - prev.length⟩ ∧
      slots.length = items.length) ∧
    deleteCount sf items prev = prev.length - items.length := by
  constructor
  · refine ⟨prev.take items.length ++
      (List.range' 0 (items.length - prev.length)).map sf.fresh,
      reconcileSlots_success sf hed hsend items prev 0, ?_⟩
    rw [List.length_append, List.length_take, List.length_map,
      List.length_range']
    omega
  · unfold deleteCount
    rw [List.filter_eq_self.mpr (fun a _ => hdel a), List.length_drop]

/-- Witness for C8: growth from 1 slot to 3 items (2 creates, 1 edit) and
shrink from 3 slots to 1 item (2 deletes, 1 edit), on the all-succeeding
surface. -/
theorem reconcile_counts_spec_witness :
    ((∃ slots, reconcileSlots sfAllOk ["a", "b", "c"] [5] 0 =
        Except.ok ⟨slots, min 3 1, 3 - 1⟩ ∧ slots.length = 3) ∧
      deleteCount sfAllOk ["a", "b", "c"] [5] = 1 - 3) ∧
    ((∃ slots, reconcileSlots sfAllOk ["a"] [5, 6, 7] 0 =
        Except.ok ⟨slots, min 1 3, 1 - 3⟩ ∧ slots.length = 1) ∧
      deleteCount sfAllOk ["a"] [5, 6, 7] = 3 - 1) :=
  ⟨reconcile_counts_spec sfAllOk ["a", "b", "c"] [5]
      (fun _ => rfl) (fun _ => rfl) (fun _ => rfl),
    reconcile_counts_spec sfAllOk ["a"] [5, 6, 7]
      (fun _ => rfl) (fun _ => rfl) (fun _ => rfl)⟩

/-- The per-surface loop splits over list append. -/
theorem runSurfaces_append (items : List String) (rs1 rs2 : List SurfaceRun)
    (st : Nat → List Nat) :
    runSurfaces items (rs1 ++ rs2) st =
      runSurfaces items rs2 (runSurfaces items rs1 st) := by
  induction rs1 generalizing st with
  | nil => rfl
  | cons r rest ih =>
    show runSurfaces items (r :: (rest ++ rs2)) st = _
    simp only [runSurfaces]
    cases processSurface r.chOk r.sf items (st r.cid) with
    | ok slots => exact ih _
    | error u => exact ih st

/-- Surfaces with other channel ids never touch a given channel's
remembered list. -/
theorem runSurfaces_other (items : List String) (rs : List SurfaceRun)
    (st : Nat → List Nat) (c : Nat) (hc : c ∉ rs.map SurfaceRun.cid) :
    runSurfaces items rs st c = st c := by
  induction rs generalizing st with
  | nil => rfl
  | cons r rest ih =>
    simp only [List.map_cons, List.mem_cons, not_or] at hc
    cases h : processSurface r.chOk r.sf items (st r.cid) with
    | ok slots =>
      simp only [runSurfaces, h]
      rw [ih _ hc.2]
      simp [hc.1]
    | error u =>
      simp only [runSurfaces, h]
      exact ih st hc.2

/-- C9: a surface whose channel fetch fails — or whose pass aborts on a
thrown operation before the final assignment — keeps its remembered slot
list exactly as it was, and the loop still reconciles every remaining
surface as if the failed one had been skipped. -/
theorem surface_failure_isolation_spec (items : List String)
    (pre : List SurfaceRun) (r : SurfaceRun) (post : List SurfaceRun)
    (st : Nat → List Nat)
    (hfail : processSurface r.chOk r.sf items
      (runSurfaces items pre st r.cid) = Except.error ())
    (hpre : r.cid ∉ pre.map SurfaceRun.cid)
    (hpost : r.cid ∉ post.map SurfaceRun.cid) :
    runSurfaces items (pre ++ r :: post) st =
      runSurfaces items post (runSurfaces items pre st) ∧
    runSurfaces items (pre ++ r :: post) st r.cid = st r.cid := by
  have h1 : runSurfaces items (pre ++ r :: post) st =
      runSurfaces items post (runSurfaces items pre st) := by
    rw [runSurfaces_append]
    simp only [runSurfaces, hfail]
  refine ⟨h1, ?_⟩
  rw [h1, runSurfaces_other items post _ _ hpost,
    runSurfaces_other items pre st _ hpre]

/-- The second configured surface of the witness cycle, reachable and
fully succeeding. -/
def surfGood : SurfaceRun := ⟨2, true, sfAllOk⟩

/-- The first configured surface of the witness cycle: its channel fetch
fails. -/
def surfBad : SurfaceRun := ⟨1, false, sfAllOk⟩

/-- The remembered state entering the witness cycle. -/
def stWitness : Nat → List Nat := fun c => if c = 1 then [7] else []

/-- Witness for C9: the unreachable surface keeps its slot `[7]` while
the remaining surface is still reconciled. -/
theorem surface_failure_isolation_spec_witness :
    runSurfaces ["x"] ([] ++ surfBad :: [surfGood]) stWitness =
      runSurfaces ["x"] [surfGood] (runSurfaces ["x"] [] stWitness) ∧
    runSurfaces ["x"] ([] ++ surfBad :: [surfGood]) stWitness surfBad.cid =
      stWitness surfBad.cid :=
  surface_failure_isolation_spec ["x"] [] surfBad [surfGood] stWitness
    rfl (by decide) (by decide)

end HLL
